import Mathlib

/-!
Verification development for the LoRaDB Instance Manager.

The repository's visible source is `loradb_manager/config.py`: global
configuration constants and the startup validation routine
`Config.validate`.  The surrounding Instance Manager (Port Allocator,
Instance Registry, Token Issuer, Lifecycle Manager) is specified in the
accompanying design document; those components are modelled here from the
specification's words, while everything that exists in `config.py` is
embedded from the source.
-/

/-! ## Configuration constants, embedded from `loradb_manager/config.py` -/

def Config.PORT_RANGE_MIN : Nat := 8000

def Config.PORT_RANGE_MAX : Nat := 9999

def Config.DEFAULT_LORADB_PORT : Nat := 8443

def Config.DOCKER_COMPOSE_TIMEOUT : Nat := 120

def Config.CONTAINER_HEALTH_CHECK_TIMEOUT : Nat := 60

def Config.LOG_TAIL_LINES : Nat := 100

def Config.STATUS_REFRESH_INTERVAL : Nat := 5

def Config.API_REQUEST_TIMEOUT : Nat := 30

def Config.TOKEN_REFRESH_INTERVAL : Nat := 30

def Config.JWT_TOKEN_LIFETIME : Nat := 300

/-! ## Startup validation, embedded from `Config.validate` in
`loradb_manager/config.py`

The routine touches three external facts (the docker-compose template
file exists, the `.env.example` template file exists, the container
runtime answers a ping) and one piece of filesystem state (whether the
instances-root directory exists).  We model that environment as four
booleans.  `Config.validate` checks the three preconditions in the
source's order, raising `RuntimeError` at the first failure, and only
then runs `INSTANCES_ROOT.mkdir(parents=True, exist_ok=True)`, which
succeeds whether or not the directory already exists. -/

structure SysEnv where
  composeExists : Bool
  envExampleExists : Bool
  dockerReachable : Bool
  instancesRootExists : Bool
deriving DecidableEq, Repr

/-- The distinct `RuntimeError` messages `Config.validate` can raise. -/
inductive ValidateError where
  | composeTemplateMissing
  | envExampleMissing
  | dockerUnavailable
deriving DecidableEq, Repr

/-- Embeds `Config.validate` (config.py lines 40-73): check
docker-compose template, then `.env.example`, then ping the container
runtime; on success create the instances-root directory.  The returned
`SysEnv` is the filesystem state after the call (unchanged when an error
is raised). -/
def Config.validate (e : SysEnv) : Except ValidateError Unit × SysEnv :=
  if !e.composeExists then (.error .composeTemplateMissing, e)
  else if !e.envExampleExists then (.error .envExampleMissing, e)
  else if !e.dockerReachable then (.error .dockerUnavailable, e)
  else (.ok (), { e with instancesRootExists := true })

/-! ## Port Allocator

Modelled from the spec: section 4.1 gives the Port Allocator contract
`reserve() -> port | ExhaustedError`, `release(port)` over the closed
integer range [PORT_RANGE_MIN, PORT_RANGE_MAX], lowest free port first,
with idempotent `release`.  The component itself is not in the visible
source; only the range bounds are (config.py lines 21-22). -/

/-- The candidate ports, in increasing order: 8000, 8001, ..., 9999. -/
def allPorts : List Nat :=
  List.range' Config.PORT_RANGE_MIN (Config.PORT_RANGE_MAX + 1 - Config.PORT_RANGE_MIN)

/-- Modelled from the spec: the Port Allocator's state is the set of
ports currently reserved (spec section 4.1). -/
structure PortAllocator where
  used : List Nat
deriving DecidableEq, Repr

/-- Scan a candidate list for the first port not in `used`. -/
def scanFree (used : List Nat) : List Nat → Option Nat
  | [] => none
  | p :: rest => if p ∈ used then scanFree used rest else some p

/-- Modelled from the spec: `reserve` returns the lowest free port of the
range and marks it used; `none` models `ExhaustedError` (spec section 4.1). -/
def PortAllocator.reserve (a : PortAllocator) : Option (Nat × PortAllocator) :=
  match scanFree a.used allPorts with
  | some p => some (p, ⟨p :: a.used⟩)
  | none => none

/-- Modelled from the spec: `release(port)` frees the port; releasing an
already-free port is a no-op (spec section 4.1). -/
def PortAllocator.release (a : PortAllocator) (p : Nat) : PortAllocator :=
  ⟨a.used.filter (fun q => !(q == p))⟩

theorem scanFree_eq_none {used : List Nat} :
    ∀ {l : List Nat}, scanFree used l = none ↔ ∀ p ∈ l, p ∈ used := by
  intro l
  induction l with
  | nil => simp [scanFree]
  | cons q rest ih =>
    by_cases h : q ∈ used
    · simp [scanFree, h, ih]
    · simp [scanFree, h]

theorem scanFree_some_range' {used : List Nat} :
    ∀ (n a p : Nat), scanFree used (List.range' a n) = some p →
      a ≤ p ∧ p < a + n ∧ p ∉ used ∧ ∀ q, a ≤ q → q < p → q ∈ used := by
  intro n
  induction n with
  | zero => intro a p h; simp [List.range', scanFree] at h
  | succ m ih =>
    intro a p h
    rw [List.range'_succ] at h
    by_cases hc : a ∈ used
    · rw [scanFree, if_pos hc] at h
      obtain ⟨h1, h2, h3, h4⟩ := ih (a + 1) p h
      refine ⟨by omega, by omega, h3, ?_⟩
      intro q hq1 hq2
      rcases Nat.eq_or_lt_of_le hq1 with heq | hlt
      · exact heq ▸ hc
      · exact h4 q hlt hq2
    · rw [scanFree, if_neg hc] at h
      cases h
      exact ⟨Nat.le_refl _, by omega, hc, fun q hq1 hq2 => by omega⟩

theorem scanFree_range'_eq_some {used : List Nat} :
    ∀ (n a p : Nat), a ≤ p → p < a + n → p ∉ used →
      (∀ q, a ≤ q → q < p → q ∈ used) →
      scanFree used (List.range' a n) = some p := by
  intro n
  induction n with
  | zero => intro a p h1 h2; omega
  | succ m ih =>
    intro a p h1 h2 h3 h4
    rw [List.range'_succ]
    rcases Nat.eq_or_lt_of_le h1 with heq | hlt
    · rw [scanFree, if_neg (heq ▸ h3)]
      exact congrArg some heq
    · have hca : a ∈ used := h4 a (Nat.le_refl _) hlt
      rw [scanFree, if_pos hca]
      exact ih (a + 1) p hlt (by omega) h3 (fun q hq1 hq2 => h4 q (by omega) hq2)

theorem mem_allPorts {p : Nat} :
    p ∈ allPorts ↔ Config.PORT_RANGE_MIN ≤ p ∧ p ≤ Config.PORT_RANGE_MAX := by
  rw [allPorts, List.mem_range'_1]
  simp only [Config.PORT_RANGE_MIN, Config.PORT_RANGE_MAX]
  omega

/-- `reserve` fails exactly when every port of the range is in use. -/
theorem reserve_eq_none_iff (a : PortAllocator) :
    a.reserve = none ↔ ∀ p ∈ allPorts, p ∈ a.used := by
  unfold PortAllocator.reserve
  rw [← scanFree_eq_none]
  cases h : scanFree a.used allPorts <;> simp

/-- `reserve` returns the free port `p` when everything in the range
below `p` is in use. -/
theorem reserve_eq_some (a : PortAllocator) (p : Nat)
    (h1 : Config.PORT_RANGE_MIN ≤ p) (h2 : p ≤ Config.PORT_RANGE_MAX)
    (h3 : p ∉ a.used)
    (h4 : ∀ q, Config.PORT_RANGE_MIN ≤ q → q < p → q ∈ a.used) :
    a.reserve = some (p, ⟨p :: a.used⟩) := by
  have hs : scanFree a.used allPorts = some p := by
    rw [allPorts]
    refine scanFree_range'_eq_some _ _ _ h1 ?_ h3 h4
    simp only [Config.PORT_RANGE_MIN, Config.PORT_RANGE_MAX] at h2 ⊢
    omega
  unfold PortAllocator.reserve
  rw [hs]

/-- What a successful `reserve` tells us: the returned port is in range,
was free, is the lowest free port, and is now marked used. -/
theorem reserve_some_spec (a : PortAllocator) (p : Nat) (a' : PortAllocator)
    (h : a.reserve = some (p, a')) :
    Config.PORT_RANGE_MIN ≤ p ∧ p ≤ Config.PORT_RANGE_MAX ∧ p ∉ a.used ∧
      a' = ⟨p :: a.used⟩ ∧
      ∀ q, Config.PORT_RANGE_MIN ≤ q → q < p → q ∈ a.used := by
  unfold PortAllocator.reserve at h
  rcases hs : scanFree a.used allPorts with _ | q
  · rw [hs] at h; simp at h
  · rw [hs] at h
    simp only [Option.some.injEq, Prod.mk.injEq] at h
    obtain ⟨rfl, rfl⟩ := h
    rw [allPorts] at hs
    obtain ⟨hb1, hb2, hb3, hb4⟩ := scanFree_some_range' _ _ _ hs
    refine ⟨hb1, ?_, hb3, rfl, hb4⟩
    simp only [Config.PORT_RANGE_MIN, Config.PORT_RANGE_MAX] at hb2 ⊢
    omega

theorem mem_release {a : PortAllocator} {p q : Nat} :
    q ∈ (a.release p).used ↔ q ∈ a.used ∧ q ≠ p := by
  simp [PortAllocator.release, List.mem_filter]

theorem release_of_not_mem {a : PortAllocator} {p : Nat} (h : p ∉ a.used) :
    a.release p = a := by
  obtain ⟨u⟩ := a
  simp only [PortAllocator.release, PortAllocator.mk.injEq]
  refine List.filter_eq_self.mpr ?_
  intro q hq
  have hqp : q ≠ p := fun hqp => h (hqp ▸ hq)
  simp [hqp]

/-- C7: `Port Allocator.release` is idempotent — releasing an
already-free port is a no-op that leaves the allocator unchanged, so
releasing the same port twice has the same effect as releasing it once. -/
theorem release_idempotent :
    ∀ (a : PortAllocator) (p : Nat),
      (p ∉ a.used → a.release p = a) ∧ (a.release p).release p = a.release p := by
  intro a p
  have hfree : p ∉ (a.release p).used := by
    rw [mem_release]
    rintro ⟨-, h⟩
    exact h rfl
  exact ⟨fun h => release_of_not_mem h, release_of_not_mem hfree⟩

/-- Witness for C7 at a concrete allocator: port 8000 is free in an
allocator holding only 8443, and releasing it changes nothing. -/
theorem release_idempotent_witness :
    8000 ∉ (PortAllocator.mk [8443]).used ∧
      (PortAllocator.mk [8443]).release 8000 = PortAllocator.mk [8443] :=
  ⟨by decide, (release_idempotent ⟨[8443]⟩ 8000).1 (by decide)⟩

/-- C4: `reserve` always returns the lowest currently-free port of
[PORT_RANGE_MIN, PORT_RANGE_MAX]; consequently, after reserving until
`reserve` fails with `ExhaustedError` and then releasing exactly one
in-range port `p`, the next `reserve` succeeds and returns `p`, and the
call after that fails with `ExhaustedError` again. -/
theorem reserve_lowest_free_exhaustion_cycle :
    (∀ (b : PortAllocator) (q : Nat) (b' : PortAllocator),
      b.reserve = some (q, b') →
        q ∉ b.used ∧ Config.PORT_RANGE_MIN ≤ q ∧ q ≤ Config.PORT_RANGE_MAX ∧
          ∀ r, Config.PORT_RANGE_MIN ≤ r → r < q → r ∈ b.used) ∧
    (∀ (a : PortAllocator) (p : Nat), a.reserve = none →
      Config.PORT_RANGE_MIN ≤ p → p ≤ Config.PORT_RANGE_MAX →
      (a.release p).reserve = some (p, ⟨p :: (a.release p).used⟩) ∧
        (PortAllocator.mk (p :: (a.release p).used)).reserve = none) := by
  constructor
  · intro b q b' h
    obtain ⟨h1, h2, h3, -, h5⟩ := reserve_some_spec b q b' h
    exact ⟨h3, h1, h2, h5⟩
  · intro a p hnone hp1 hp2
    have hall : ∀ q ∈ allPorts, q ∈ a.used := (reserve_eq_none_iff a).mp hnone
    have hfree : p ∉ (a.release p).used := by
      rw [mem_release]; rintro ⟨-, h⟩; exact h rfl
    have hbelow : ∀ q, Config.PORT_RANGE_MIN ≤ q → q < p → q ∈ (a.release p).used := by
      intro q hq1 hq2
      rw [mem_release]
      refine ⟨hall q (mem_allPorts.mpr ⟨hq1, by omega⟩), by omega⟩
    refine ⟨reserve_eq_some _ p hp1 hp2 hfree hbelow, ?_⟩
    rw [reserve_eq_none_iff]
    intro q hq
    by_cases hqp : q = p
    · exact hqp ▸ List.mem_cons_self _ _
    · exact List.mem_cons_of_mem _ (mem_release.mpr ⟨hall q hq, hqp⟩)

/-- Witness for C4: start from the fully-reserved allocator, release
port 8000; the next reserve returns exactly 8000 and the one after is
exhausted again. -/
theorem reserve_lowest_free_exhaustion_cycle_witness :
    ((PortAllocator.mk allPorts).release 8000).reserve
        = some (8000, ⟨8000 :: ((PortAllocator.mk allPorts).release 8000).used⟩) ∧
      (PortAllocator.mk (8000 :: ((PortAllocator.mk allPorts).release 8000).used)).reserve
        = none :=
  reserve_lowest_free_exhaustion_cycle.2 ⟨allPorts⟩ 8000
    ((reserve_eq_none_iff ⟨allPorts⟩).mpr (fun _p hp => hp)) (by decide) (by decide)

/-! ## Claims about `Config.validate` (source: config.py lines 40-73) -/

/-- C3: `Config.validate` raises an error if the docker-compose template
is missing, or the `.env.example` template is missing, or the container
runtime ping fails, and it returns normally exactly when all three
preconditions hold.  The error return models the fatal `RuntimeError`:
startup aborts and the process does not proceed to serve requests. -/
theorem validate_ok_iff_preconditions :
    ∀ e : SysEnv,
      ((Config.validate e).1 = Except.ok () ↔
        e.composeExists = true ∧ e.envExampleExists = true ∧ e.dockerReachable = true) ∧
      ((∃ err, (Config.validate e).1 = Except.error err) ↔
        ¬(e.composeExists = true ∧ e.envExampleExists = true ∧ e.dockerReachable = true)) := by
  intro e
  obtain ⟨c, v, d, r⟩ := e
  cases c <;> cases v <;> cases d <;> simp [Config.validate]

/-- Witness for C3: with both templates present and the runtime
reachable, `validate` returns normally. -/
theorem validate_ok_iff_preconditions_witness :
    (Config.validate ⟨true, true, true, false⟩).1 = Except.ok () :=
  (validate_ok_iff_preconditions ⟨true, true, true, false⟩).1.mpr ⟨rfl, rfl, rfl⟩

/-- C9: after `Config.validate` completes successfully the
instances-root directory exists — created if absent, left in place if
already present (`validate` succeeds in both cases, and its success is
independent of whether the directory already existed) — and `validate`
never deletes it or any other modelled filesystem object. -/
theorem validate_creates_instances_root :
    ∀ e : SysEnv,
      ((Config.validate e).1 = Except.ok () →
        ((Config.validate e).2.instancesRootExists = true ∧
          (Config.validate e).2.composeExists = e.composeExists ∧
          (Config.validate e).2.envExampleExists = e.envExampleExists ∧
          (Config.validate e).2.dockerReachable = e.dockerReachable)) ∧
      (∀ b, (Config.validate { e with instancesRootExists := b }).1 =
        (Config.validate e).1) := by
  intro e
  obtain ⟨c, v, d, r⟩ := e
  cases c <;> cases v <;> cases d <;> simp [Config.validate]

/-- Witness for C9: starting without the directory, a successful
`validate` leaves it existing and the rest of the environment intact. -/
theorem validate_creates_instances_root_witness :
    (Config.validate ⟨true, true, true, false⟩).2.instancesRootExists = true ∧
      (Config.validate ⟨true, true, true, false⟩).2.composeExists = true ∧
      (Config.validate ⟨true, true, true, false⟩).2.envExampleExists = true ∧
      (Config.validate ⟨true, true, true, false⟩).2.dockerReachable = true :=
  (validate_creates_instances_root ⟨true, true, true, false⟩).1 rfl

/-- C10: `Config.validate` checks its preconditions in the source's
fixed order — docker-compose template, then `.env.example`, then the
container-runtime ping — and creates the instances-root directory only
after all three pass, so whenever it raises an error it has made no
filesystem change at all. -/
theorem validate_check_order_and_error_purity :
    ∀ e : SysEnv,
      (e.composeExists = false →
        Config.validate e = (Except.error ValidateError.composeTemplateMissing, e)) ∧
      (e.composeExists = true → e.envExampleExists = false →
        Config.validate e = (Except.error ValidateError.envExampleMissing, e)) ∧
      (e.composeExists = true → e.envExampleExists = true → e.dockerReachable = false →
        Config.validate e = (Except.error ValidateError.dockerUnavailable, e)) ∧
      (∀ err, (Config.validate e).1 = Except.error err → (Config.validate e).2 = e) := by
  intro e
  obtain ⟨c, v, d, r⟩ := e
  cases c <;> cases v <;> cases d <;> simp [Config.validate]

/-- Witness for C10: with only the docker-compose template missing,
`validate` reports exactly that error and leaves the environment
untouched. -/
theorem validate_check_order_and_error_purity_witness :
    Config.validate ⟨false, true, true, false⟩
      = (Except.error ValidateError.composeTemplateMissing, ⟨false, true, true, false⟩) :=
  (validate_check_order_and_error_purity ⟨false, true, true, false⟩).1 rfl

/-! ## Token Issuer

Modelled from the spec: section 4.4 gives the Token Issuer contract —
`issue(instanceId, scope) -> token` valid for JWT_TOKEN_LIFETIME
seconds, and `refresh(instanceId) -> token` callable no more often than
every TOKEN_REFRESH_INTERVAL seconds per instance, earlier calls
returning the still-valid cached token rather than minting a new one.
Tokens carry an expiry claim.  The component is not in the visible
source; only the two interval constants are (config.py lines 37-38). -/

/-- Modelled from the spec: a signed token, abstracted to its identity
(standing for the signature payload) and its expiry claim. -/
structure Token where
  tid : Nat
  expiry : Nat
deriving DecidableEq, Repr

/-- Modelled from the spec: the per-instance issuer state — the cached
token, the time it was minted, and a counter producing fresh token
identities. -/
structure TokenIssuer where
  cached : Token
  issuedAt : Nat
  nextId : Nat
deriving DecidableEq, Repr

/-- Modelled from the spec: mint a fresh token carrying an expiry claim
of JWT_TOKEN_LIFETIME seconds from now (spec section 4.4). -/
def mintToken (n now : Nat) : Token :=
  ⟨n, now + Config.JWT_TOKEN_LIFETIME⟩

/-- Modelled from the spec: `issue` mints the instance's first token. -/
def TokenIssuer.issue (n now : Nat) : TokenIssuer :=
  ⟨mintToken n now, now, n + 1⟩

/-- Modelled from the spec: `refresh` returns the still-valid cached
token if less than TOKEN_REFRESH_INTERVAL seconds have passed since it
was minted, and mints a fresh token otherwise (spec section 4.4). -/
def TokenIssuer.refresh (ti : TokenIssuer) (now : Nat) : Token × TokenIssuer :=
  if now < ti.issuedAt + Config.TOKEN_REFRESH_INTERVAL then
    (ti.cached, ti)
  else
    let t := mintToken ti.nextId now
    (t, ⟨t, now, ti.nextId + 1⟩)

/-- The issuer's cached token was minted at `issuedAt`, so its expiry
claim sits exactly JWT_TOKEN_LIFETIME later. -/
def TokenIssuer.wf (ti : TokenIssuer) : Prop :=
  ti.cached.expiry = ti.issuedAt + Config.JWT_TOKEN_LIFETIME

/-- C5 counterexample: a token minted at time 0 and refresh calls at
times 29 and 30 — only one second apart, well inside
TOKEN_REFRESH_INTERVAL — return different tokens: the first call
returns the cached token, the second mints a new one because the cached
token's own refresh window (measured from its mint time, not from the
previous call) has lapsed. -/
theorem refresh_twice_within_interval_counterexample :
    29 ≤ 30 ∧ 30 - 29 < Config.TOKEN_REFRESH_INTERVAL ∧
      (((TokenIssuer.issue 0 0).refresh 29).2.refresh 30).1
        ≠ ((TokenIssuer.issue 0 0).refresh 29).1 := by
  refine ⟨by decide, by decide, ?_⟩
  decide

/-- C5 as amended: when the first of the two calls itself mints the
token (the cached token's refresh window had lapsed), any second call
less than TOKEN_REFRESH_INTERVAL seconds later returns the identical
cached token and mints nothing — the issuer state is unchanged. -/
theorem refresh_twice_within_interval_of_mint :
    ∀ (ti : TokenIssuer) (t1 t2 : Nat),
      ti.issuedAt + Config.TOKEN_REFRESH_INTERVAL ≤ t1 →
      t1 ≤ t2 → t2 < t1 + Config.TOKEN_REFRESH_INTERVAL →
      ((ti.refresh t1).2.refresh t2).1 = (ti.refresh t1).1 ∧
        ((ti.refresh t1).2.refresh t2).2 = (ti.refresh t1).2 := by
  intro ti t1 t2 hmint h12 hwin
  have h1 : ¬ t1 < ti.issuedAt + Config.TOKEN_REFRESH_INTERVAL := by omega
  simp [TokenIssuer.refresh, h1, hwin]

/-- Witness for the amended C5: a token minted at 0, first call at 30
(mints), second at 40 (returns the same cached token). -/
theorem refresh_twice_within_interval_of_mint_witness :
    (((TokenIssuer.issue 0 0).refresh 30).2.refresh 40).1
        = ((TokenIssuer.issue 0 0).refresh 30).1 ∧
      (((TokenIssuer.issue 0 0).refresh 30).2.refresh 40).2
        = ((TokenIssuer.issue 0 0).refresh 30).2 :=
  refresh_twice_within_interval_of_mint (TokenIssuer.issue 0 0) 30 40
    (by decide) (by decide) (by decide)

/-- C8: every issued token's lifetime is exactly the configured
JWT_TOKEN_LIFETIME (300 seconds, hence at most it), the configured
TOKEN_REFRESH_INTERVAL (30 seconds) does not exceed JWT_TOKEN_LIFETIME,
and a cached token handed back by a `refresh` call made inside the
refresh window is still within its validity period. -/
theorem token_lifetime_bounds :
    ∀ (ti : TokenIssuer) (n now : Nat),
      (mintToken n now).expiry - now ≤ Config.JWT_TOKEN_LIFETIME ∧
      Config.TOKEN_REFRESH_INTERVAL ≤ Config.JWT_TOKEN_LIFETIME ∧
      (ti.wf → now < ti.issuedAt + Config.TOKEN_REFRESH_INTERVAL →
        (ti.refresh now).1 = ti.cached ∧ now < ((ti.refresh now).1).expiry) ∧
      (ti.wf → ((ti.refresh now).2).wf) := by
  intro ti n now
  refine ⟨by simp [mintToken], by decide, ?_, ?_⟩
  · intro hwf hwin
    rw [TokenIssuer.refresh, if_pos hwin]
    refine ⟨rfl, ?_⟩
    rw [TokenIssuer.wf] at hwf
    rw [hwf]
    have : Config.TOKEN_REFRESH_INTERVAL ≤ Config.JWT_TOKEN_LIFETIME := by decide
    omega
  · intro hwf
    rw [TokenIssuer.refresh]
    by_cases hwin : now < ti.issuedAt + Config.TOKEN_REFRESH_INTERVAL
    · rw [if_pos hwin]; exact hwf
    · rw [if_neg hwin]
      simp [TokenIssuer.wf, mintToken]

/-- Witness for C8: an issuer whose token was minted at time 0, queried
at time 10 — the cached token comes back and is still valid. -/
theorem token_lifetime_bounds_witness :
    ((TokenIssuer.issue 0 0).refresh 10).1 = (TokenIssuer.issue 0 0).cached ∧
      10 < (((TokenIssuer.issue 0 0).refresh 10).1).expiry :=
  (token_lifetime_bounds (TokenIssuer.issue 0 0) 0 10).2.2.1 rfl (by decide)

/-! ## Instance Registry and Lifecycle Manager

Modelled from the spec: sections 3 (data model), 4.3 (Registry
contract), 4.5 (lifecycle state machine) and 5 (per-instance total
order of operations).  None of these components are in the visible
source; the model follows the specification's words. -/

/-- Modelled from the spec: the instance states of spec section 3. -/
inductive IState where
  | Pending
  | Starting
  | HealthChecking
  | Running
  | Degraded
  | Stopping
  | Stopped
  | Failed
deriving DecidableEq, Repr

/-- Stopped and Failed are the terminal states (spec section 4.5). -/
def IState.isTerminal : IState → Bool
  | .Stopped => true
  | .Failed => true
  | _ => false

/-- Modelled from the spec: a Registry entry — identity, state, and the
port held while a port is assigned (spec section 3). -/
structure Inst where
  id : Nat
  state : IState
  port : Option Nat
deriving DecidableEq, Repr

/-- Registry errors (spec sections 4.3 and 7). -/
inductive RegError where
  | NotTerminalError
  | NotFoundError
deriving DecidableEq, Repr

/-- Modelled from the spec: `Registry.remove` deletes the named entry
but fails with `NotTerminalError` if the instance is not in Stopped or
Failed state (spec section 4.3). -/
def Registry.remove (l : List Inst) (id : Nat) : Except RegError (List Inst) :=
  match l.find? (fun i => i.id == id) with
  | some i =>
    if i.state.isTerminal then Except.ok (l.filter (fun j => !(j.id == id)))
    else Except.error RegError.NotTerminalError
  | none => Except.error RegError.NotFoundError

/-- Modelled from the spec: the Instance Manager's shared state — the
Registry (single source of truth) and the Port Allocator. -/
structure MgrState where
  registry : List Inst
  alloc : PortAllocator
deriving DecidableEq, Repr

/-- The lifecycle events of spec section 4.5, one per state-machine
edge, plus Registry removal.  Per section 5 each instance's operations
are serialized, so a run of the manager is a sequence of these. -/
inductive Op where
  | create (id : Nat)
  | start (id : Nat)
  | bringUpOk (id : Nat)
  | bringUpFail (id : Nat)
  | healthOk (id : Nat)
  | healthFail (id : Nat)
  | degrade (id : Nat)
  | recover (id : Nat)
  | stop (id : Nat)
  | tearDownOk (id : Nat)
  | tearDownFail (id : Nat)
  | removeInst (id : Nat)
deriving DecidableEq, Repr

/-- Release an optional port back to the allocator. -/
def releasePort (a : PortAllocator) : Option Nat → PortAllocator
  | some p => a.release p
  | none => a

/-- Move one entry along a non-terminal lifecycle edge: if it is the
named instance and its state is accepted by `src`, its state becomes
`dst` and it keeps its port. -/
def transApply (src : IState → Bool) (dst : IState) (id : Nat) (j : Inst) : Inst :=
  if j.id == id && src j.state then ⟨j.id, dst, j.port⟩ else j

/-- Transition the instance named `id` from a state accepted by `src`
to `dst`, keeping its port (the non-terminal lifecycle edges). -/
def transOp (src : IState → Bool) (dst : IState) (id : Nat) (s : MgrState) : MgrState :=
  { s with registry := s.registry.map (transApply src dst id) }

/-- Move one entry to a terminal state: if it is the named instance and
its state is accepted by `src`, its state becomes `dst` and its port
field is cleared (the port itself is released by `termOp`). -/
def termApply (src : IState → Bool) (dst : IState) (id : Nat) (j : Inst) : Inst :=
  if j.id == id && src j.state then ⟨j.id, dst, none⟩ else j

/-- Transition the instance named `id` from a state accepted by `src`
to the terminal state `dst`, reclaiming its port (spec sections 4.5 and
8: a Failed or Stopped instance's port is released). -/
def termOp (src : IState → Bool) (dst : IState) (id : Nat) (s : MgrState) : MgrState :=
  match s.registry.find? (fun i => i.id == id && src i.state) with
  | some i =>
    { registry := s.registry.map (termApply src dst id),
      alloc := releasePort s.alloc i.port }
  | none => s

/-- Assign the reserved port: if the entry is the named Pending
instance, it moves to Starting holding port `p`. -/
def startApply (id p : Nat) (j : Inst) : Inst :=
  if j.id == id && j.state == .Pending then ⟨j.id, .Starting, some p⟩ else j

/-- Modelled from the spec: one step of the Lifecycle Manager's state
machine (spec section 4.5).  Operations whose preconditions do not hold
leave the state unchanged. -/
def applyOp (op : Op) (s : MgrState) : MgrState :=
  match op with
  | .create id =>
    if s.registry.any (fun i => i.id == id) then s
    else { s with registry := s.registry ++ [⟨id, .Pending, none⟩] }
  | .start id =>
    match s.registry.find? (fun i => i.id == id && i.state == .Pending) with
    | some _ =>
      match s.alloc.reserve with
      | some (p, a') =>
        { registry := s.registry.map (startApply id p), alloc := a' }
      | none =>
        { s with
          registry := s.registry.filter (fun i => !(i.id == id && i.state == .Pending)) }
    | none => s
  | .bringUpOk id => transOp (fun σ => σ == .Starting) .HealthChecking id s
  | .bringUpFail id => termOp (fun σ => σ == .Starting) .Failed id s
  | .healthOk id => transOp (fun σ => σ == .HealthChecking) .Running id s
  | .healthFail id => termOp (fun σ => σ == .HealthChecking) .Failed id s
  | .degrade id => transOp (fun σ => σ == .Running) .Degraded id s
  | .recover id => transOp (fun σ => σ == .Degraded) .Running id s
  | .stop id => transOp (fun σ => σ == .Running || σ == .Degraded) .Stopping id s
  | .tearDownOk id => termOp (fun σ => σ == .Stopping) .Stopped id s
  | .tearDownFail id => termOp (fun σ => σ == .Stopping) .Failed id s
  | .removeInst id =>
    match Registry.remove s.registry id with
    | .ok l' => { s with registry := l' }
    | .error _ => s

/-- The manager starts with an empty Registry and no reserved ports. -/
def initState : MgrState := ⟨[], ⟨[]⟩⟩

/-- Run a sequence of lifecycle events from a state. -/
def run : List Op → MgrState → MgrState
  | [], s => s
  | op :: ops, s => run ops (applyOp op s)

/-- The edges of the lifecycle state machine of spec section 4.5. -/
def stepOk : IState → IState → Bool
  | .Pending, .Starting => true
  | .Pending, .Failed => true
  | .Starting, .HealthChecking => true
  | .Starting, .Failed => true
  | .HealthChecking, .Running => true
  | .HealthChecking, .Failed => true
  | .Running, .Degraded => true
  | .Degraded, .Running => true
  | .Running, .Stopping => true
  | .Degraded, .Stopping => true
  | .Stopping, .Stopped => true
  | .Stopping, .Failed => true
  | _, _ => false

/-- The port an entry holds against the allocator: its port field while
it is in a non-terminal state. -/
def contribPort (i : Inst) : Option Nat :=
  if i.state.isTerminal then none else i.port

/-- All ports held by non-terminal instances, in Registry order. -/
def heldPorts (l : List Inst) : List Nat := l.filterMap contribPort

/-- The Instance Manager's invariant: instance ids are unique, the held
ports are pairwise distinct, every held port is marked used in the
allocator, and a Pending instance holds no port yet. -/
def MgrInv (s : MgrState) : Prop :=
  (s.registry.map Inst.id).Nodup ∧
  (heldPorts s.registry).Nodup ∧
  (∀ p ∈ heldPorts s.registry, p ∈ s.alloc.used) ∧
  (∀ i ∈ s.registry, i.state = .Pending → i.port = none)

/-! ### Registry bookkeeping lemmas -/

theorem filterMap_sublist_of_pointwise {α β : Type} {f g : α → Option β} :
    ∀ {l : List α}, (∀ a ∈ l, g a = f a ∨ g a = none) →
      List.Sublist (l.filterMap g) (l.filterMap f) := by
  intro l
  induction l with
  | nil => intro _; simp
  | cons x xs ih =>
    intro h
    have hxs := ih (fun a ha => h a (List.mem_cons_of_mem _ ha))
    rw [List.filterMap_cons, List.filterMap_cons]
    rcases h x (List.mem_cons_self x xs) with heq | hnone
    · rw [heq]
      cases hfx : f x with
      | none => exact hxs
      | some b => exact List.Sublist.cons₂ _ hxs
    · rw [hnone]
      cases hfx : f x with
      | none => exact hxs
      | some b => exact List.Sublist.cons _ hxs

theorem mem_filterMap_of_pointwise {α β : Type} {f g : α → Option β} {p : β}
    {l : List α} (h : ∀ a ∈ l, g a = f a ∨ g a = some p)
    {x : β} (hx : x ∈ l.filterMap g) : x = p ∨ x ∈ l.filterMap f := by
  rw [List.mem_filterMap] at hx
  obtain ⟨a, ha, hga⟩ := hx
  rcases h a ha with heq | hp
  · right
    rw [List.mem_filterMap]
    exact ⟨a, ha, heq ▸ hga⟩
  · left
    rw [hp] at hga
    exact (Option.some_inj.mp hga).symm

theorem eq_of_nodup_filterMap {α β : Type} {f : α → Option β} :
    ∀ {l : List α} {i j : α} {b : β},
      (l.filterMap f).Nodup → i ∈ l → j ∈ l → f i = some b → f j = some b →
      i = j := by
  intro l
  induction l with
  | nil => intro i j b _ hi _ _ _; cases hi
  | cons x xs ih =>
    intro i j b hnd hi hj hfi hfj
    rw [List.filterMap_cons] at hnd
    rcases List.mem_cons.mp hi with rfl | hi'
    · rcases List.mem_cons.mp hj with rfl | hj'
      · rfl
      · rw [hfi] at hnd
        have hb : b ∈ xs.filterMap f := List.mem_filterMap.mpr ⟨j, hj', hfj⟩
        exact absurd hb (List.nodup_cons.mp hnd).1
    · rcases List.mem_cons.mp hj with rfl | hj'
      · rw [hfj] at hnd
        have hb : b ∈ xs.filterMap f := List.mem_filterMap.mpr ⟨i, hi', hfi⟩
        exact absurd hb (List.nodup_cons.mp hnd).1
      · refine ih ?_ hi' hj' hfi hfj
        cases hfx : f x with
        | none => rw [hfx] at hnd; exact hnd
        | some c => rw [hfx] at hnd; exact (List.nodup_cons.mp hnd).2

theorem inst_eq_of_mem {l : List Inst} (hnd : (l.map Inst.id).Nodup) {i j : Inst}
    (hi : i ∈ l) (hj : j ∈ l) (heq : i.id = j.id) : i = j :=
  List.inj_on_of_nodup_map hnd hi hj heq

theorem mem_map_of_id_preserving {l : List Inst} {g : Inst → Inst}
    (hid : ∀ x, (g x).id = x.id) (hnd : (l.map Inst.id).Nodup)
    {i j : Inst} (hi : i ∈ l) (hj : j ∈ l.map g) (heq : i.id = j.id) : j = g i := by
  rw [List.mem_map] at hj
  obtain ⟨i', hi', rfl⟩ := hj
  have : i = i' := inst_eq_of_mem hnd hi hi' (by rw [heq, hid])
  rw [this]

theorem map_ids_of_id_preserving {l : List Inst} {g : Inst → Inst}
    (hid : ∀ x, (g x).id = x.id) :
    (l.map g).map Inst.id = l.map Inst.id := by
  rw [List.map_map]
  exact List.map_congr_left (fun a _ => hid a)

/-! ### Invariant preservation -/

theorem MgrInv_mapped {l : List Inst} {a : PortAllocator} {g : Inst → Inst}
    (hid : ∀ x, (g x).id = x.id)
    (hcontrib : ∀ x, contribPort (g x) = contribPort x)
    (hpend2 : ∀ x ∈ l, (g x).state = IState.Pending → (g x).port = none)
    (h : MgrInv ⟨l, a⟩) : MgrInv ⟨l.map g, a⟩ := by
  obtain ⟨hids, hnd, hsub, hpend⟩ := h
  have hfm : (l.map g).filterMap contribPort = l.filterMap contribPort := by
    rw [List.filterMap_map]
    exact List.filterMap_congr (fun x _ => hcontrib x)
  refine ⟨?_, ?_, ?_, ?_⟩
  · rw [map_ids_of_id_preserving hid]
    exact hids
  · rw [heldPorts, hfm]
    exact hnd
  · intro p hp
    rw [heldPorts, hfm] at hp
    exact hsub p hp
  · intro i hi hist
    rw [List.mem_map] at hi
    obtain ⟨x, hx, rfl⟩ := hi
    exact hpend2 x hx hist

theorem transApply_id {src : IState → Bool} {dst : IState} {id : Nat} (x : Inst) :
    (transApply src dst id x).id = x.id := by
  unfold transApply
  by_cases hc : (x.id == id && src x.state) = true
  · rw [if_pos hc]
  · rw [if_neg hc]

theorem transApply_contrib {src : IState → Bool} {dst : IState} {id : Nat}
    (hsrc : ∀ σ, src σ = true → σ.isTerminal = false)
    (hdstT : dst.isTerminal = false) (x : Inst) :
    contribPort (transApply src dst id x) = contribPort x := by
  unfold transApply
  by_cases hc : (x.id == id && src x.state) = true
  · rw [if_pos hc]
    have hterm : x.state.isTerminal = false := hsrc _ (Bool.and_eq_true_iff.mp hc).2
    simp [contribPort, hterm, hdstT]
  · rw [if_neg hc]

theorem transApply_pendPort {src : IState → Bool} {dst : IState} {id : Nat}
    (hdstP : dst ≠ IState.Pending) (x : Inst)
    (hx : x.state = IState.Pending → x.port = none) :
    (transApply src dst id x).state = IState.Pending →
      (transApply src dst id x).port = none := by
  unfold transApply
  by_cases hc : (x.id == id && src x.state) = true
  · rw [if_pos hc]
    intro hcon
    exact absurd hcon hdstP
  · rw [if_neg hc]
    exact hx

theorem MgrInv_transOp {src : IState → Bool} {dst : IState} {id : Nat} {s : MgrState}
    (hsrc : ∀ σ, src σ = true → σ.isTerminal = false)
    (hdstT : dst.isTerminal = false) (hdstP : dst ≠ IState.Pending)
    (h : MgrInv s) : MgrInv (transOp src dst id s) := by
  obtain ⟨l, a⟩ := s
  exact MgrInv_mapped transApply_id (transApply_contrib hsrc hdstT)
    (fun x hx => transApply_pendPort hdstP x (h.2.2.2 x hx)) h

theorem termApply_id {src : IState → Bool} {dst : IState} {id : Nat} (x : Inst) :
    (termApply src dst id x).id = x.id := by
  unfold termApply
  by_cases hc : (x.id == id && src x.state) = true
  · rw [if_pos hc]
  · rw [if_neg hc]

theorem termApply_of_pos {src : IState → Bool} {dst : IState} {id : Nat} {x : Inst}
    (hc : (x.id == id && src x.state) = true) :
    termApply src dst id x = ⟨x.id, dst, none⟩ := by
  unfold termApply
  rw [if_pos hc]

theorem termApply_of_neg {src : IState → Bool} {dst : IState} {id : Nat} {x : Inst}
    (hc : ¬(x.id == id && src x.state) = true) :
    termApply src dst id x = x := by
  unfold termApply
  rw [if_neg hc]

theorem termApply_contrib {src : IState → Bool} {dst : IState} {id : Nat}
    (hdstT : dst.isTerminal = true) (x : Inst) :
    contribPort (termApply src dst id x) = contribPort x ∨
      contribPort (termApply src dst id x) = none := by
  by_cases hc : (x.id == id && src x.state) = true
  · right
    rw [termApply_of_pos hc]
    simp [contribPort, hdstT]
  · left
    rw [termApply_of_neg hc]

theorem MgrInv_term_some {src : IState → Bool} {dst : IState} {id : Nat}
    {s : MgrState} {i0 : Inst}
    (hsrc : ∀ σ, src σ = true → σ.isTerminal = false)
    (hdstT : dst.isTerminal = true)
    (hf : s.registry.find? (fun i => i.id == id && src i.state) = some i0)
    (h : MgrInv s) :
    MgrInv ⟨s.registry.map (termApply src dst id), releasePort s.alloc i0.port⟩ := by
  obtain ⟨hids, hnd, hsub, hpend⟩ := h
  have hfc0 := List.find?_some hf
  have hfc : (i0.id == id && src i0.state) = true := hfc0
  have hmem : i0 ∈ s.registry := List.mem_of_find?_eq_some hf
  have hterm0 : i0.state.isTerminal = false := hsrc _ (Bool.and_eq_true_iff.mp hfc).2
  have hsl : List.Sublist (heldPorts (s.registry.map (termApply src dst id)))
      (heldPorts s.registry) := by
    rw [heldPorts, heldPorts, List.filterMap_map]
    exact filterMap_sublist_of_pointwise (fun x _ => termApply_contrib hdstT x)
  refine ⟨?_, ?_, ?_, ?_⟩
  · rw [map_ids_of_id_preserving (fun x => termApply_id x)]
    exact hids
  · exact List.Nodup.sublist hsl hnd
  · intro p hp
    have hx : ∃ x ∈ s.registry, contribPort (termApply src dst id x) = some p := by
      rw [heldPorts, List.filterMap_map] at hp
      exact List.mem_filterMap.mp hp
    obtain ⟨x, hxl, hgx⟩ := hx
    have hcx : ¬(x.id == id && src x.state) = true := by
      intro hc
      rw [termApply_of_pos hc] at hgx
      simp [contribPort, hdstT] at hgx
    rw [termApply_of_neg hcx] at hgx
    have hpl : p ∈ heldPorts s.registry := List.mem_filterMap.mpr ⟨x, hxl, hgx⟩
    have hpa : p ∈ s.alloc.used := hsub p hpl
    cases hport : i0.port with
    | none => exact hpa
    | some q =>
      have hcontrib0 : contribPort i0 = some q := by
        simp [contribPort, hterm0, hport]
      have hneq : p ≠ q := by
        intro hpq
        subst hpq
        have hxi : x = i0 := eq_of_nodup_filterMap hnd hxl hmem hgx hcontrib0
        rw [hxi] at hcx
        exact hcx hfc
      exact mem_release.mpr ⟨hpa, hneq⟩
  · intro i hi hist
    rw [List.mem_map] at hi
    obtain ⟨x, hxl, rfl⟩ := hi
    by_cases hc : (x.id == id && src x.state) = true
    · rw [termApply_of_pos hc]
    · rw [termApply_of_neg hc] at hist ⊢
      exact hpend x hxl hist

theorem MgrInv_termOp {src : IState → Bool} {dst : IState} {id : Nat} {s : MgrState}
    (hsrc : ∀ σ, src σ = true → σ.isTerminal = false)
    (hdstT : dst.isTerminal = true)
    (h : MgrInv s) : MgrInv (termOp src dst id s) := by
  unfold termOp
  split
  · rename_i i0 hf
    exact MgrInv_term_some hsrc hdstT hf h
  · exact h

theorem startApply_id {id p : Nat} (x : Inst) : (startApply id p x).id = x.id := by
  unfold startApply
  by_cases hc : (x.id == id && x.state == IState.Pending) = true
  · rw [if_pos hc]
  · rw [if_neg hc]

theorem startApply_of_pos {id p : Nat} {x : Inst}
    (hc : (x.id == id && x.state == IState.Pending) = true) :
    startApply id p x = ⟨x.id, IState.Starting, some p⟩ := by
  unfold startApply
  rw [if_pos hc]

theorem startApply_of_neg {id p : Nat} {x : Inst}
    (hc : ¬(x.id == id && x.state == IState.Pending) = true) :
    startApply id p x = x := by
  unfold startApply
  rw [if_neg hc]

theorem heldPorts_cons_none {x : Inst} {xs : List Inst}
    (h : contribPort x = none) : heldPorts (x :: xs) = heldPorts xs := by
  rw [heldPorts, heldPorts, List.filterMap_cons_none h]

theorem heldPorts_cons_some {x : Inst} {xs : List Inst} {v : Nat}
    (h : contribPort x = some v) : heldPorts (x :: xs) = v :: heldPorts xs := by
  rw [heldPorts, heldPorts, List.filterMap_cons_some h]

theorem heldPorts_start {id p : Nat} :
    ∀ {l : List Inst},
      (l.map Inst.id).Nodup →
      (heldPorts l).Nodup →
      (∀ i ∈ l, i.state = IState.Pending → i.port = none) →
      (∀ x ∈ heldPorts l, x ≠ p) →
      (heldPorts (l.map (startApply id p))).Nodup ∧
        ∀ x ∈ heldPorts (l.map (startApply id p)), x = p ∨ x ∈ heldPorts l := by
  intro l
  induction l with
  | nil =>
    intro _ _ _ _
    exact ⟨List.nodup_nil, fun x hx => absurd hx (List.not_mem_nil x)⟩
  | cons x xs ih =>
    intro hids hnd hpend hne
    rw [List.map_cons, List.nodup_cons] at hids
    obtain ⟨hxid, hxsids⟩ := hids
    have hpendxs : ∀ i ∈ xs, i.state = IState.Pending → i.port = none :=
      fun i hi => hpend i (List.mem_cons_of_mem _ hi)
    by_cases hcx : (x.id == id && x.state == IState.Pending) = true
    · have hxPend : x.state = IState.Pending :=
        beq_iff_eq.mp (Bool.and_eq_true_iff.mp hcx).2
      have hxport : x.port = none := hpend x (List.mem_cons_self x xs) hxPend
      have hcontribx : contribPort x = none := by
        simp [contribPort, hxPend, IState.isTerminal, hxport]
      have hxid' : (x.id == id) = true := (Bool.and_eq_true_iff.mp hcx).1
      have hothers : ∀ j ∈ xs, startApply id p j = j := by
        intro j hj
        apply startApply_of_neg
        intro hcj
        have hjid : j.id = id := beq_iff_eq.mp (Bool.and_eq_true_iff.mp hcj).1
        have hjx : j.id = x.id := by rw [hjid, beq_iff_eq.mp hxid']
        exact hxid (hjx ▸ List.mem_map_of_mem Inst.id hj)
      have hmapxs : xs.map (startApply id p) = xs := by
        have h1 : xs.map (startApply id p) = xs.map (fun j => j) :=
          List.map_congr_left hothers
        rw [h1]
        exact List.map_id' xs
      rw [List.map_cons, hmapxs, startApply_of_pos hcx]
      have hcontribNew : contribPort (⟨x.id, IState.Starting, some p⟩ : Inst) = some p := by
        simp [contribPort, IState.isTerminal]
      rw [heldPorts_cons_some hcontribNew]
      rw [heldPorts_cons_none hcontribx] at hnd hne ⊢
      constructor
      · rw [List.nodup_cons]
        exact ⟨fun hpmem => hne p hpmem rfl, hnd⟩
      · intro y hy
        rcases List.mem_cons.mp hy with rfl | hy'
        · left; rfl
        · right; exact hy'
    · rw [List.map_cons, startApply_of_neg hcx]
      cases hcp : contribPort x with
      | none =>
        rw [heldPorts_cons_none hcp] at hnd hne
        rw [heldPorts_cons_none hcp, heldPorts_cons_none hcp]
        exact ih hxsids hnd hpendxs hne
      | some v =>
        rw [heldPorts_cons_some hcp] at hnd hne
        obtain ⟨hvnot, hndxs⟩ := List.nodup_cons.mp hnd
        obtain ⟨ihnd, ihmem⟩ := ih hxsids hndxs hpendxs
          (fun y hy => hne y (List.mem_cons_of_mem _ hy))
        rw [heldPorts_cons_some hcp, heldPorts_cons_some hcp]
        constructor
        · rw [List.nodup_cons]
          refine ⟨?_, ihnd⟩
          intro hv
          rcases ihmem v hv with h1 | h2
          · exact hne v (List.mem_cons_self _ _) h1
          · exact hvnot h2
        · intro y hy
          rcases List.mem_cons.mp hy with rfl | hy'
          · right; exact List.mem_cons_self _ _
          · rcases ihmem y hy' with h1 | h2
            · left; exact h1
            · right; exact List.mem_cons_of_mem _ h2

theorem MgrInv_start_some {id : Nat} {s : MgrState} {i0 : Inst} {p : Nat}
    {a' : PortAllocator}
    (_hf : s.registry.find? (fun i => i.id == id && i.state == IState.Pending) = some i0)
    (hres : s.alloc.reserve = some (p, a'))
    (h : MgrInv s) :
    MgrInv ⟨s.registry.map (startApply id p), a'⟩ := by
  obtain ⟨hids, hnd, hsub, hpend⟩ := h
  obtain ⟨-, -, hpfree, ha', -⟩ := reserve_some_spec _ _ _ hres
  subst ha'
  have hne : ∀ x ∈ heldPorts s.registry, x ≠ p := by
    intro x hx hxp
    exact hpfree (hxp ▸ hsub x hx)
  obtain ⟨hnd', hmem'⟩ := heldPorts_start hids hnd hpend hne
  refine ⟨?_, hnd', ?_, ?_⟩
  · rw [map_ids_of_id_preserving (fun x => startApply_id x)]
    exact hids
  · intro q hq
    rcases hmem' q hq with rfl | hq'
    · exact List.mem_cons_self _ _
    · exact List.mem_cons_of_mem _ (hsub q hq')
  · intro i hi hist
    rw [List.mem_map] at hi
    obtain ⟨x, hxl, rfl⟩ := hi
    by_cases hc : (x.id == id && x.state == IState.Pending) = true
    · rw [startApply_of_pos hc] at hist
      exact IState.noConfusion hist
    · rw [startApply_of_neg hc] at hist ⊢
      exact hpend x hxl hist

theorem MgrInv_filter {s : MgrState} (c : Inst → Bool) (h : MgrInv s) :
    MgrInv ⟨s.registry.filter c, s.alloc⟩ := by
  obtain ⟨hids, hnd, hsub, hpend⟩ := h
  have hsl : List.Sublist (s.registry.filter c) s.registry := List.filter_sublist _
  refine ⟨?_, ?_, ?_, ?_⟩
  · exact List.Nodup.sublist (List.Sublist.map Inst.id hsl) hids
  · exact List.Nodup.sublist (List.Sublist.filterMap contribPort hsl) hnd
  · intro q hq
    exact hsub q ((List.Sublist.filterMap contribPort hsl).subset hq)
  · intro i hi hist
    exact hpend i (List.mem_of_mem_filter hi) hist

theorem MgrInv_create {id : Nat} {s : MgrState}
    (hfresh : ¬(s.registry.any (fun i => i.id == id)) = true)
    (h : MgrInv s) :
    MgrInv ⟨s.registry ++ [⟨id, IState.Pending, none⟩], s.alloc⟩ := by
  obtain ⟨hids, hnd, hsub, hpend⟩ := h
  have hnotin : id ∉ s.registry.map Inst.id := by
    intro hmem
    rw [List.mem_map] at hmem
    obtain ⟨i, hi, hid⟩ := hmem
    apply hfresh
    rw [List.any_eq_true]
    exact ⟨i, hi, by rw [hid]; exact beq_self_eq_true id⟩
  have hH : heldPorts (s.registry ++ [⟨id, IState.Pending, none⟩]) = heldPorts s.registry := by
    rw [heldPorts, List.filterMap_append]
    simp [contribPort, IState.isTerminal, heldPorts]
  refine ⟨?_, ?_, ?_, ?_⟩
  · rw [List.map_append]
    rw [List.nodup_append]
    refine ⟨hids, List.nodup_singleton _, ?_⟩
    intro a ha hb
    rw [List.map_singleton, List.mem_singleton] at hb
    subst hb
    exact hnotin ha
  · rw [hH]; exact hnd
  · intro q hq
    rw [hH] at hq
    exact hsub q hq
  · intro i hi hist
    rcases List.mem_append.mp hi with h1 | h2
    · exact hpend i h1 hist
    · rw [List.mem_singleton] at h2
      subst h2
      rfl

theorem MgrInv_applyOp (op : Op) (s : MgrState) (h : MgrInv s) :
    MgrInv (applyOp op s) := by
  cases op with
  | create id =>
    simp only [applyOp]
    split
    · exact h
    · rename_i hfresh
      exact MgrInv_create hfresh h
  | start id =>
    simp only [applyOp]
    split
    · rename_i i0 hf
      split
      · rename_i p a' hres
        exact MgrInv_start_some hf hres h
      · exact MgrInv_filter _ h
    · exact h
  | bringUpOk id =>
    exact MgrInv_transOp (by intro σ hσ; revert hσ; cases σ <;> decide)
      (by decide) (by decide) h
  | bringUpFail id =>
    exact MgrInv_termOp (by intro σ hσ; revert hσ; cases σ <;> decide) (by decide) h
  | healthOk id =>
    exact MgrInv_transOp (by intro σ hσ; revert hσ; cases σ <;> decide)
      (by decide) (by decide) h
  | healthFail id =>
    exact MgrInv_termOp (by intro σ hσ; revert hσ; cases σ <;> decide) (by decide) h
  | degrade id =>
    exact MgrInv_transOp (by intro σ hσ; revert hσ; cases σ <;> decide)
      (by decide) (by decide) h
  | recover id =>
    exact MgrInv_transOp (by intro σ hσ; revert hσ; cases σ <;> decide)
      (by decide) (by decide) h
  | stop id =>
    exact MgrInv_transOp (by intro σ hσ; revert hσ; cases σ <;> decide)
      (by decide) (by decide) h
  | tearDownOk id =>
    exact MgrInv_termOp (by intro σ hσ; revert hσ; cases σ <;> decide) (by decide) h
  | tearDownFail id =>
    exact MgrInv_termOp (by intro σ hσ; revert hσ; cases σ <;> decide) (by decide) h
  | removeInst id =>
    simp only [applyOp]
    split
    · rename_i l' hrem
      unfold Registry.remove at hrem
      split at hrem
      · rename_i i1 hf1
        split at hrem
        · cases hrem
          exact MgrInv_filter _ h
        · cases hrem
      · cases hrem
    · exact h

theorem MgrInv_init : MgrInv initState :=
  ⟨List.nodup_nil, List.nodup_nil,
    fun p hp => absurd hp (List.not_mem_nil p),
    fun i hi _ => absurd hi (List.not_mem_nil i)⟩

theorem MgrInv_run : ∀ (ops : List Op) (s : MgrState), MgrInv s → MgrInv (run ops s) := by
  intro ops
  induction ops with
  | nil => intro s h; exact h
  | cons op ops ih =>
    intro s h
    exact ih _ (MgrInv_applyOp op s h)

/-! ### Claims about the Instance Manager -/

theorem pairwise_of_heldPorts_nodup :
    ∀ {l : List Inst}, (heldPorts l).Nodup →
      l.Pairwise (fun i j => i.state.isTerminal = false → j.state.isTerminal = false →
        i.port = j.port → i.port = none) := by
  intro l
  induction l with
  | nil => intro _; exact List.Pairwise.nil
  | cons x xs ih =>
    intro hnd
    cases hcp : contribPort x with
    | none =>
      rw [heldPorts_cons_none hcp] at hnd
      refine List.Pairwise.cons ?_ (ih hnd)
      intro j _hj hxT _hjT _hport
      simp [contribPort, hxT] at hcp
      exact hcp
    | some v =>
      rw [heldPorts_cons_some hcp] at hnd
      obtain ⟨hvnot, hndxs⟩ := List.nodup_cons.mp hnd
      refine List.Pairwise.cons ?_ (ih hndxs)
      intro j hj hxT hjT hport
      exfalso
      have hxport : x.port = some v := by
        simp [contribPort, hxT] at hcp
        exact hcp
      have hjport : contribPort j = some v := by
        simp [contribPort, hjT]
        rw [← hport, hxport]
      apply hvnot
      rw [heldPorts]
      exact List.mem_filterMap.mpr ⟨j, hj, hjport⟩

theorem transApply_of_pos {src : IState → Bool} {dst : IState} {id : Nat} {x : Inst}
    (hc : (x.id == id && src x.state) = true) :
    transApply src dst id x = ⟨x.id, dst, x.port⟩ := by
  unfold transApply
  rw [if_pos hc]

theorem transApply_of_neg {src : IState → Bool} {dst : IState} {id : Nat} {x : Inst}
    (hc : ¬(x.id == id && src x.state) = true) :
    transApply src dst id x = x := by
  unfold transApply
  rw [if_neg hc]

theorem transOp_step {src : IState → Bool} {dst : IState} {id : Nat} {s : MgrState}
    {i j : Inst}
    (hedge : ∀ σ, src σ = true → stepOk σ dst = true)
    (hinv : MgrInv s) (hi : i ∈ s.registry)
    (hj : j ∈ (transOp src dst id s).registry) (heq : i.id = j.id) :
    i.state = j.state ∨ stepOk i.state j.state = true := by
  have hjg := mem_map_of_id_preserving (fun x => transApply_id x) hinv.1 hi hj heq
  by_cases hc : (i.id == id && src i.state) = true
  · rw [transApply_of_pos hc] at hjg
    subst hjg
    right
    exact hedge _ (Bool.and_eq_true_iff.mp hc).2
  · rw [transApply_of_neg hc] at hjg
    subst hjg
    left
    rfl

theorem termOp_step {src : IState → Bool} {dst : IState} {id : Nat} {s : MgrState}
    {i j : Inst}
    (hedge : ∀ σ, src σ = true → stepOk σ dst = true)
    (hinv : MgrInv s) (hi : i ∈ s.registry)
    (hj : j ∈ (termOp src dst id s).registry) (heq : i.id = j.id) :
    i.state = j.state ∨ stepOk i.state j.state = true := by
  unfold termOp at hj
  split at hj
  · have hjg := mem_map_of_id_preserving (fun x => termApply_id x) hinv.1 hi hj heq
    by_cases hc : (i.id == id && src i.state) = true
    · rw [termApply_of_pos hc] at hjg
      subst hjg
      right
      exact hedge _ (Bool.and_eq_true_iff.mp hc).2
    · rw [termApply_of_neg hc] at hjg
      subst hjg
      left
      rfl
  · left
    exact congrArg Inst.state (inst_eq_of_mem hinv.1 hi hj heq)

theorem applyOp_step {op : Op} {s : MgrState} (hinv : MgrInv s) {i j : Inst}
    (hi : i ∈ s.registry) (hj : j ∈ (applyOp op s).registry) (heq : i.id = j.id) :
    i.state = j.state ∨ stepOk i.state j.state = true := by
  have hids := hinv.1
  cases op with
  | create id =>
    simp only [applyOp] at hj
    split at hj
    · left
      exact congrArg Inst.state (inst_eq_of_mem hids hi hj heq)
    · rename_i hfresh
      rcases List.mem_append.mp hj with hj1 | hj2
      · left
        exact congrArg Inst.state (inst_eq_of_mem hids hi hj1 heq)
      · rw [List.mem_singleton] at hj2
        subst hj2
        exfalso
        apply hfresh
        rw [List.any_eq_true]
        exact ⟨i, hi, by rw [heq]; exact beq_self_eq_true _⟩
  | start id =>
    simp only [applyOp] at hj
    split at hj
    · split at hj
      · have hjg := mem_map_of_id_preserving (fun x => startApply_id x) hids hi hj heq
        by_cases hc : (i.id == id && i.state == IState.Pending) = true
        · rw [startApply_of_pos hc] at hjg
          subst hjg
          right
          have hp : i.state = IState.Pending :=
            beq_iff_eq.mp (Bool.and_eq_true_iff.mp hc).2
          rw [hp]
          rfl
        · rw [startApply_of_neg hc] at hjg
          subst hjg
          left
          rfl
      · left
        exact congrArg Inst.state
          (inst_eq_of_mem hids hi (List.mem_of_mem_filter hj) heq)
    · left
      exact congrArg Inst.state (inst_eq_of_mem hids hi hj heq)
  | bringUpOk id =>
    exact transOp_step (by intro σ hσ; revert hσ; cases σ <;> decide) hinv hi hj heq
  | bringUpFail id =>
    exact termOp_step (by intro σ hσ; revert hσ; cases σ <;> decide) hinv hi hj heq
  | healthOk id =>
    exact transOp_step (by intro σ hσ; revert hσ; cases σ <;> decide) hinv hi hj heq
  | healthFail id =>
    exact termOp_step (by intro σ hσ; revert hσ; cases σ <;> decide) hinv hi hj heq
  | degrade id =>
    exact transOp_step (by intro σ hσ; revert hσ; cases σ <;> decide) hinv hi hj heq
  | recover id =>
    exact transOp_step (by intro σ hσ; revert hσ; cases σ <;> decide) hinv hi hj heq
  | stop id =>
    exact transOp_step (by intro σ hσ; revert hσ; cases σ <;> decide) hinv hi hj heq
  | tearDownOk id =>
    exact termOp_step (by intro σ hσ; revert hσ; cases σ <;> decide) hinv hi hj heq
  | tearDownFail id =>
    exact termOp_step (by intro σ hσ; revert hσ; cases σ <;> decide) hinv hi hj heq
  | removeInst id =>
    simp only [applyOp] at hj
    split at hj
    · rename_i l' hrem
      unfold Registry.remove at hrem
      split at hrem
      · split at hrem
        · cases hrem
          left
          exact congrArg Inst.state
            (inst_eq_of_mem hids hi (List.mem_of_mem_filter hj) heq)
        · cases hrem
      · cases hrem
    · left
      exact congrArg Inst.state (inst_eq_of_mem hids hi hj heq)

/-- C1: in every reachable state of the Instance Manager, no two
distinct instances that are both in a non-terminal state hold the same
port (two non-terminal entries with equal port fields can only both be
portless); `reserve` never returns a port currently held by a
non-terminal instance; and `reserve` fails with `ExhaustedError` when
every port of [PORT_RANGE_MIN, PORT_RANGE_MAX] is occupied. -/
theorem port_uniqueness_invariant :
    (∀ ops : List Op,
      (run ops initState).registry.Pairwise (fun i j =>
        i.state.isTerminal = false → j.state.isTerminal = false →
        i.port = j.port → i.port = none)) ∧
    (∀ (ops : List Op) (p : Nat) (a' : PortAllocator),
      (run ops initState).alloc.reserve = some (p, a') →
      ∀ i ∈ (run ops initState).registry, i.state.isTerminal = false →
        i.port ≠ some p) ∧
    (∀ a : PortAllocator,
      (∀ p, Config.PORT_RANGE_MIN ≤ p → p ≤ Config.PORT_RANGE_MAX → p ∈ a.used) →
      a.reserve = none) := by
  refine ⟨?_, ?_, ?_⟩
  · intro ops
    exact pairwise_of_heldPorts_nodup (MgrInv_run ops initState MgrInv_init).2.1
  · intro ops p a' hres i hi hT hport
    obtain ⟨-, -, hpfree, -, -⟩ := reserve_some_spec _ _ _ hres
    have hc : contribPort i = some p := by
      simp [contribPort, hT]
      exact hport
    have hp : p ∈ heldPorts (run ops initState).registry := by
      rw [heldPorts]
      exact List.mem_filterMap.mpr ⟨i, hi, hc⟩
    exact hpfree ((MgrInv_run ops initState MgrInv_init).2.2.1 p hp)
  · intro a hall
    rw [reserve_eq_none_iff]
    intro p hp
    obtain ⟨h1, h2⟩ := mem_allPorts.mp hp
    exact hall p h1 h2

/-- Witness for C1: the fully-occupied allocator refuses to reserve. -/
theorem port_uniqueness_invariant_witness :
    (PortAllocator.mk allPorts).reserve = none :=
  port_uniqueness_invariant.2.2 ⟨allPorts⟩ (fun _p h1 h2 => mem_allPorts.mpr ⟨h1, h2⟩)

/-- C2: in every reachable state, applying any operation changes an
instance's state only along the edges of the section-4.5 state machine
(`stepOk`); that machine has no direct Pending→Running edge; and
Stopped and Failed have no outgoing edge at all, so an instance that
entered a terminal state never leaves it. -/
theorem lifecycle_state_machine :
    (∀ (ops : List Op) (op : Op) (i j : Inst),
      i ∈ (run ops initState).registry →
      j ∈ (applyOp op (run ops initState)).registry →
      i.id = j.id → i.state = j.state ∨ stepOk i.state j.state = true) ∧
    stepOk IState.Pending IState.Running = false ∧
    (∀ σ σ' : IState, σ.isTerminal = true → stepOk σ σ' = false) := by
  refine ⟨?_, rfl, ?_⟩
  · intro ops op i j hi hj heq
    exact applyOp_step (MgrInv_run ops initState MgrInv_init) hi hj heq
  · intro σ σ' hσ
    revert hσ
    cases σ <;> cases σ' <;> decide

/-- Witness for C2: after creating instance 5, the `start` event moves
it from Pending to Starting — an edge of the machine. -/
theorem lifecycle_state_machine_witness :
    (⟨5, IState.Pending, none⟩ : Inst).state
        = (⟨5, IState.Starting, some 8000⟩ : Inst).state ∨
      stepOk (⟨5, IState.Pending, none⟩ : Inst).state
        (⟨5, IState.Starting, some 8000⟩ : Inst).state = true :=
  lifecycle_state_machine.1 [Op.create 5] (Op.start 5)
    ⟨5, IState.Pending, none⟩ ⟨5, IState.Starting, some 8000⟩
    (by decide) (by decide) rfl

/-- C6: `Registry.remove` fails with `NotTerminalError` whenever the
named instance is not in Stopped or Failed state, and on that failure
the manager state — the named entry and every other entry — is exactly
what it was before the call. -/
theorem remove_requires_terminal :
    ∀ (s : MgrState) (id : Nat) (i : Inst),
      s.registry.find? (fun j => j.id == id) = some i →
      i.state.isTerminal = false →
      Registry.remove s.registry id = Except.error RegError.NotTerminalError ∧
        applyOp (Op.removeInst id) s = s := by
  intro s id i hf hT
  have hrem : Registry.remove s.registry id
      = Except.error RegError.NotTerminalError := by
    unfold Registry.remove
    rw [hf]
    simp [hT]
  refine ⟨hrem, ?_⟩
  simp only [applyOp]
  rw [hrem]

/-- Witness for C6: removing a Running instance is rejected and the
state is untouched. -/
theorem remove_requires_terminal_witness :
    Registry.remove [(⟨1, IState.Running, some 8000⟩ : Inst)] 1
        = Except.error RegError.NotTerminalError ∧
      applyOp (Op.removeInst 1) ⟨[⟨1, IState.Running, some 8000⟩], ⟨[8000]⟩⟩
        = ⟨[⟨1, IState.Running, some 8000⟩], ⟨[8000]⟩⟩ :=
  remove_requires_terminal ⟨[⟨1, IState.Running, some 8000⟩], ⟨[8000]⟩⟩ 1
    ⟨1, IState.Running, some 8000⟩ (by decide) rfl
